import Mathlib

/-!
# Verification of the smart-calendar scheduling & validation engine

A shallow embedding, in Lean 4, of the scheduling and validation engine of the
smart-calendar repository (`src/scheduler/smart_scheduler.py`,
`src/scheduler/scheduling_validator.py`, `src/calendar/calendar_manager.py`,
`config/settings.py`), together with theorems settling the documented claims
about it.

Modelling conventions:

* A `datetime` value is represented by an `Int`: the number of seconds since a
  fixed reference instant that falls on a Monday at 00:00 (all timestamps of
  the program live in the single fixed offset +05:30, so a linear second count
  is faithful).  Python's `datetime` arithmetic used by the engine
  (`+ timedelta`, `.replace(hour=..)`, `.weekday()`, `.hour`, `.date()`,
  comparisons) is linear arithmetic on this count.  Python floor division and
  `%` on these quantities agree with Euclidean `/` and `%` on `Int` because
  all divisors (86400, 3600, 7) are positive.
* A timestamp *string* is represented by `Ts`: the raw string together with
  the result `val : Option Int` of `datetime.fromisoformat` on it (`none` =
  the parse raises `ValueError`).  Code that parses inside a `try/except` is
  translated by matching on `val`; code that parses without a handler is
  translated into an `Option`-returning function where `none` models the
  escaping exception.
* Python dict equality on event dicts is structural equality of the
  corresponding structure (string fields compared as strings).
-/

/-! ### Time arithmetic layer (Python `datetime` operations used by the engine) -/

/-- Midnight of the calendar day containing `t`
(Python `t.replace(hour=0, minute=0, second=0, microsecond=0)`). -/
def dayFloor (t : Int) : Int := t - t % 86400

/-- Index of the calendar day containing `t` (reference day 0 is a Monday). -/
def dayIndex (t : Int) : Int := t / 86400

/-- Python `t.weekday()`: 0 = Monday, ..., 6 = Sunday. -/
def weekdayOf (t : Int) : Int := (t / 86400) % 7

/-- Python `t.hour` (0..23). -/
def hourOf (t : Int) : Int := t % 86400 / 3600

/-- Python `t.replace(hour=h, minute=0, second=0)` for a whole-second `t`. -/
def replaceHour (t h : Int) : Int := dayFloor t + h * 3600

/-- A timestamp string: the raw characters (used by dict equality) and the
result of `datetime.fromisoformat(raw.replace('+05:30', ''))` on it
(`none` when parsing raises). -/
structure Ts where
  raw : String
  val : Option Int
deriving DecidableEq, Repr

/-- A timestamp string freshly produced by
`dt.strftime('%Y-%m-%dT%H:%M:%S+05:30')`.  Formatting is injective and
round-trips through `fromisoformat`, so the value component is exact; the raw
component is irrelevant for such constructed strings (they are only compared
with each other or with input strings, and equal instants format equally, so
we use a canonical placeholder). -/
def mkTs (t : Int) : Ts := ⟨"", some t⟩

/-- `SmartScheduler._times_overlap` (smart_scheduler.py:415-426), composed with
the parse of its four string arguments: the half-open overlap test, returning
`False` whenever any of the four timestamps fails to parse (the `except`
branch). -/
def times_overlap (s1 e1 s2 e2 : Option Int) : Bool :=
  match s1, e1, s2, e2 with
  | some a, some b, some c, some d => decide (a < d ∧ b > c)
  | _, _, _, _ => false

/-- `SchedulingValidator._events_overlap` (scheduling_validator.py:382-392):
parses the `start`/`end` strings of two snapshot events inside `try/except`
and applies the same half-open rule, returning `False` on a parse failure. -/
def events_overlap (s1 e1 s2 e2 : Ts) : Bool :=
  times_overlap s1.val e1.val s2.val e2.val

/-- Claim C7: the overlap test is symmetric — `overlaps(A,B) = overlaps(B,A)`
for all intervals A, B (including ones with unparseable endpoints) — touching
intervals (`A.end = B.start`) never overlap, and on parseable inputs both
`_times_overlap` and `_events_overlap` implement exactly the half-open rule
`a.start < b.end ∧ a.end > b.start`. -/
theorem c7_overlap_symmetric_halfopen :
    ∀ s1 e1 s2 e2 : Option Int,
      times_overlap s1 e1 s2 e2 = times_overlap s2 e2 s1 e1 ∧
      (∀ x : Int, times_overlap s1 (some x) (some x) e2 = false) ∧
      (∀ a b c d : Int,
        times_overlap (some a) (some b) (some c) (some d) = decide (a < d ∧ b > c)) ∧
      (∀ t1 t2 t3 t4 : Ts,
        events_overlap t1 t2 t3 t4 = times_overlap t1.val t2.val t3.val t4.val) := by
  intro s1 e1 s2 e2
  refine ⟨?_, ?_, fun a b c d => rfl, fun t1 t2 t3 t4 => rfl⟩
  · rcases s1 with _ | a <;> rcases e1 with _ | b <;> rcases s2 with _ | c <;>
      rcases e2 with _ | d <;> simp only [times_overlap]
    rw [decide_eq_decide]
    omega
  · intro x
    rcases s1 with _ | a <;> rcases e2 with _ | d <;> simp [times_overlap]

/-! ### `CalendarManager.find_free_slots` (calendar_manager.py:252-322) -/

/-- The busy-period list built by the loop at calendar_manager.py:263-267:
each event's start/end strings are parsed with `datetime.fromisoformat` with
no exception handler, so the first malformed timestamp aborts the whole
search (modelled by `none`). -/
def parseBusyList : List (Ts × Ts) → Option (List (Int × Int))
  | [] => some []
  | (s, e) :: rest =>
    match s.val, e.val with
    | some a, some b => (parseBusyList rest).map (fun l => (a, b) :: l)
    | _, _ => none

/-- The gap walk of calendar_manager.py:272-320: one step per busy period
(sorted by start), emitting the clipped gap before it when it fits, plus the
final gap against the window end.  `dur` is the requested duration in
seconds, `endD` the parsed window end, `cur` the running `current_time`. -/
def walkSlots (dur endD : Int) : List (Int × Int) → Int → List (Int × Int)
  | [], cur =>
    let ss := max cur (replaceHour cur 9)
    let se := min endD (replaceHour cur 18)
    if ss + dur ≤ se then [(ss, ss + dur)] else []
  | (bs, be) :: rest, cur =>
    (if cur + dur ≤ bs then
       (let ss := max cur (replaceHour cur 9)
        let se := min bs (replaceHour cur 18)
        if ss + dur ≤ se then [(ss, ss + dur)] else [])
     else []) ++ walkSlots dur endD rest (max cur be)

/-- `CalendarManager.find_free_slots`: parse the window, parse every event
into a busy period, sort busy periods by start (Python `list.sort` is stable;
insertion sort on the start key matches it), and walk the gaps.  `none`
models an escaping `ValueError` from a malformed timestamp. -/
def find_free_slots (events : List (Ts × Ts)) (startDate endDate : Ts)
    (durationMinutes : Int) : Option (List (Int × Int)) :=
  match startDate.val, endDate.val with
  | some sd, some ed =>
    match parseBusyList events with
    | some busy =>
      some (walkSlots (durationMinutes * 60) ed
        (List.insertionSort (fun x y => x.1 ≤ y.1) busy) sd)
    | none => none
  | _, _ => none

instance : IsTotal (Int × Int) (fun x y : Int × Int => x.1 ≤ y.1) :=
  ⟨fun a b => le_total a.1 b.1⟩

instance : IsTrans (Int × Int) (fun x y : Int × Int => x.1 ≤ y.1) :=
  ⟨fun _ _ _ => le_trans⟩

lemma parseBusyList_mem {events : List (Ts × Ts)} {busy : List (Int × Int)}
    (h : parseBusyList events = some busy) :
    ∀ ev ∈ events, ∀ a b, ev.1.val = some a → ev.2.val = some b → (a, b) ∈ busy := by
  induction events generalizing busy with
  | nil => intro ev hev; simp at hev
  | cons hd tl ih =>
    intro ev hev a b ha hb
    obtain ⟨s, e⟩ := hd
    simp only [parseBusyList] at h
    rcases hs : s.val with _ | a0 <;> rcases he : e.val with _ | b0 <;>
      simp [hs, he] at h
    obtain ⟨l, hl, rfl⟩ := h
    rcases List.mem_cons.mp hev with rfl | htl
    · simp only at ha hb
      rw [hs] at ha; rw [he] at hb
      simp at ha hb
      simp [ha, hb]
    · exact List.mem_cons_of_mem _ (ih hl ev htl a b ha hb)

lemma parseBusyList_eq_none_iff {events : List (Ts × Ts)} :
    parseBusyList events = none ↔
      ∃ ev ∈ events, ev.1.val = none ∨ ev.2.val = none := by
  induction events with
  | nil => simp [parseBusyList]
  | cons hd tl ih =>
    obtain ⟨s, e⟩ := hd
    rcases hs : s.val with _ | a0 <;> rcases he : e.val with _ | b0 <;>
      simp [parseBusyList, hs, he, ih]

lemma walkSlots_sound {dur endD : Int} (hdur : 0 < dur) :
    ∀ (busy : List (Int × Int)) (cur : Int),
      busy.Pairwise (fun x y => x.1 ≤ y.1) →
      ∀ s e, (s, e) ∈ walkSlots dur endD busy cur →
        cur ≤ s ∧ e = s + dur ∧ replaceHour s 9 ≤ s ∧ e ≤ replaceHour s 18 ∧
        ∀ b ∈ busy, ¬(s < b.2 ∧ b.1 < e) := by
  intro busy
  induction busy with
  | nil =>
    intro cur _ s e hmem
    simp only [walkSlots] at hmem
    split at hmem
    case isTrue hgate =>
      simp only [List.mem_singleton, Prod.mk.injEq] at hmem
      obtain ⟨rfl, rfl⟩ := hmem
      have h1 : dayFloor (max cur (replaceHour cur 9)) = dayFloor cur := by
        unfold replaceHour dayFloor at *; omega
      refine ⟨by omega, rfl, ?_, ?_, by simp⟩
      · unfold replaceHour at *
        rw [h1]
        omega
      · unfold replaceHour at *
        rw [h1]
        omega
    case isFalse => simp at hmem
  | cons hd tl ih =>
    intro cur hpw s e hmem
    obtain ⟨bs, be⟩ := hd
    rw [List.pairwise_cons] at hpw
    obtain ⟨hhd, htl⟩ := hpw
    simp only [walkSlots, List.mem_append] at hmem
    rcases hmem with hemit | hrec
    · have hgate1 : cur + dur ≤ bs := by
        by_contra hno
        simp [hno] at hemit
      simp only [hgate1, if_true] at hemit
      split at hemit
      case isTrue hgate2 =>
        simp only [List.mem_singleton, Prod.mk.injEq] at hemit
        obtain ⟨rfl, rfl⟩ := hemit
        have h1 : dayFloor (max cur (replaceHour cur 9)) = dayFloor cur := by
          unfold replaceHour dayFloor at *; omega
        refine ⟨by omega, rfl, ?_, ?_, ?_⟩
        · unfold replaceHour at *; rw [h1]; omega
        · unfold replaceHour at *; rw [h1]; omega
        · intro b hb
          rcases List.mem_cons.mp hb with rfl | hbtl
          · simp only; omega
          · have := hhd b hbtl
            simp only at this ⊢
            omega
      case isFalse => simp at hemit
    · have := ih (max cur be) htl s e hrec
      obtain ⟨hcur, hee, hbh1, hbh2, hdisj⟩ := this
      refine ⟨by omega, hee, hbh1, hbh2, ?_⟩
      intro b hb
      rcases List.mem_cons.mp hb with rfl | hbtl
      · simp only; omega
      · exact hdisj b hbtl

/-- Claim C3 (amended): every slot returned by `find_free_slots` is disjoint
from every (parseable) busy event passed in and lies between 09:00 and 18:00
of a single calendar day, with length exactly the requested duration.  The
weekday (Mon-Fri) restriction of the original claim does NOT hold: the
`is_off_hours` weekday test at calendar_manager.py:289-291 is only logged,
never enforced (see the counterexample). -/
theorem c3_free_slots_sound (events : List (Ts × Ts)) (startDate endDate : Ts)
    (durationMinutes : Int) (hdur : 0 < durationMinutes) (slots : List (Int × Int))
    (hrun : find_free_slots events startDate endDate durationMinutes = some slots) :
    ∀ s e, (s, e) ∈ slots →
      e = s + durationMinutes * 60 ∧
      replaceHour s 9 ≤ s ∧ e ≤ replaceHour s 18 ∧
      ∀ ev ∈ events, ∀ a b, ev.1.val = some a → ev.2.val = some b →
        times_overlap (some s) (some e) (some a) (some b) = false := by
  intro s e hmem
  unfold find_free_slots at hrun
  rcases hsd : startDate.val with _ | sd <;> simp [hsd] at hrun
  rcases hed : endDate.val with _ | ed <;> simp [hed] at hrun
  rcases hpb : parseBusyList events with _ | busy <;> simp [hpb] at hrun
  subst hrun
  have hsorted : (List.insertionSort (fun x y : Int × Int => x.1 ≤ y.1) busy).Pairwise
      (fun x y => x.1 ≤ y.1) := List.sorted_insertionSort _ busy
  have hw := walkSlots_sound (by omega : (0:Int) < durationMinutes * 60)
    (List.insertionSort (fun x y : Int × Int => x.1 ≤ y.1) busy) sd hsorted s e hmem
  obtain ⟨_, hee, hbh1, hbh2, hdisj⟩ := hw
  refine ⟨hee, hbh1, hbh2, ?_⟩
  intro ev hev a b ha hb
  have hab : (a, b) ∈ List.insertionSort (fun x y : Int × Int => x.1 ≤ y.1) busy :=
    (List.perm_insertionSort _ busy).mem_iff.mpr (parseBusyList_mem hpb ev hev a b ha hb)
  have := hdisj (a, b) hab
  simp only [times_overlap, decide_eq_false_iff_not]
  simp only at this
  omega

/-- Claim C3, witness: a concrete run.  Window Monday 00:00 - Tuesday 00:00
(reference day 0), one busy event 10:00-11:00, duration 30 minutes; the
second returned slot (11:00-11:30) satisfies every property of the theorem. -/
theorem c3_free_slots_sound_witness :
    (41400 : Int) = 39600 + 30 * 60 ∧
    replaceHour 39600 9 ≤ (39600 : Int) ∧ (41400 : Int) ≤ replaceHour 39600 18 ∧
    ∀ ev ∈ [((⟨"2025-..T10", some 36000⟩ : Ts), (⟨"2025-..T11", some 39600⟩ : Ts))],
      ∀ a b, ev.1.val = some a → ev.2.val = some b →
        times_overlap (some 39600) (some 41400) (some a) (some b) = false :=
  c3_free_slots_sound
    [((⟨"2025-..T10", some 36000⟩ : Ts), (⟨"2025-..T11", some 39600⟩ : Ts))]
    ⟨"w0", some 0⟩ ⟨"w1", some 86400⟩ 30 (by norm_num)
    [(32400, 34200), (39600, 41400)] (by decide) 39600 41400 (by decide)

/-- The literal rendering of claim C3's weekday part: every returned slot
starts on a weekday (Mon-Fri). -/
def c3WeekdayClaim : Prop :=
  ∀ (events : List (Ts × Ts)) (sd ed : Ts) (dur : Int) (slots : List (Int × Int)),
    find_free_slots events sd ed dur = some slots →
    ∀ sl ∈ slots, weekdayOf sl.1 < 5

/-- Claim C3, counterexample: an empty calendar over the window Saturday
00:00 - Sunday 00:00 (days 5-6 of the reference week) yields the slot
Saturday 09:00-09:30 — `find_free_slots` happily returns weekend slots, so
the claimed Mon-Fri property is false. -/
theorem c3_counterexample : ¬ c3WeekdayClaim := by
  intro h
  have := h [] ⟨"sat", some 432000⟩ ⟨"sun", some 518400⟩ 30
    [(464400, 466200)] (by decide) (464400, 466200) (by decide)
  exact absurd this (by decide)

/-- Claim C8 (amended): the overlap test never raises — any malformed
timestamp makes it report "no overlap" — but the free-slot search does NOT
skip malformed timestamps: it propagates the parse exception (returns no
list) exactly when some event's start or end fails to parse. -/
theorem c8_overlap_safe_search_raises (events : List (Ts × Ts)) (r1 r2 : String)
    (sd ed dur : Int) (s1 e1 s2 e2 : Option Int) :
    times_overlap none e1 s2 e2 = false ∧
    times_overlap s1 none s2 e2 = false ∧
    times_overlap s1 e1 none e2 = false ∧
    times_overlap s1 e1 s2 none = false ∧
    (find_free_slots events ⟨r1, some sd⟩ ⟨r2, some ed⟩ dur = none ↔
      ∃ ev ∈ events, ev.1.val = none ∨ ev.2.val = none) := by
  refine ⟨?_, ?_, ?_, ?_, ?_⟩
  · rfl
  · rcases s1 with _ | a <;> rfl
  · rcases s1 with _ | a <;> rcases e1 with _ | b <;> rfl
  · rcases s1 with _ | a <;> rcases e1 with _ | b <;> rcases s2 with _ | c <;> rfl
  · rw [← parseBusyList_eq_none_iff]
    unfold find_free_slots
    rcases hpb : parseBusyList events with _ | busy <;> simp [hpb]

/-- The literal rendering of claim C8: for every input — including ones with
malformed timestamps — the free-slot search returns a (possibly empty) list
of slots, i.e. it never raises. -/
def c8Claim : Prop :=
  ∀ (events : List (Ts × Ts)) (sd ed : Ts) (dur : Int),
    (find_free_slots events sd ed dur).isSome

/-- Claim C8, counterexample: a single event whose start string does not
parse makes `find_free_slots` raise (return nothing): the parse at
calendar_manager.py:265-266 has no exception handler. -/
theorem c8_counterexample : ¬ c8Claim := by
  intro h
  have := h [(⟨"not-a-timestamp", none⟩, ⟨"2025-07-24T10:00:00+05:30", some 315000⟩)]
    ⟨"w0", some 0⟩ ⟨"w1", some 604800⟩ 30
  simp [find_free_slots, parseBusyList] at this

/-! ### Scheduler event model and high-priority relocation
(`smart_scheduler.py:293-346, 556-675`) -/

/-- An event dict as it appears in the scheduler's `calendar_data`
(`CalendarEvent.to_dict`): keys `StartTime`, `EndTime`, `NumAttendees`,
`Attendees`, `Summary`.  Structural equality models Python dict equality. -/
structure SchedEvent where
  startTime : Ts
  endTime : Ts
  numAttendees : Int
  attendees : List String
  summary : String
deriving DecidableEq, Repr

/-- `calendar_data`: insertion-ordered mapping email -> list of event dicts. -/
abbrev CalendarData := List (String × List SchedEvent)

/-- A conflict dict built by `_find_conflicts` (smart_scheduler.py:556-573):
`{email, event, summary, start, end}`. -/
structure Conflict where
  email : String
  event : SchedEvent
  summary : String
  startTs : Ts
  endTs : Ts
deriving DecidableEq, Repr

/-- `SmartScheduler._find_conflicts`: every event of every participant that
overlaps the given slot, in dict-iteration (= insertion) order. -/
def find_conflicts (ps pe : Int) (cal : CalendarData) : List Conflict :=
  cal.flatMap (fun p =>
    p.2.filterMap (fun ev =>
      if times_overlap (some ps) (some pe) ev.startTime.val ev.endTime.val then
        some ⟨p.1, ev, ev.summary, ev.startTime, ev.endTime⟩
      else none))

/-- The candidate grid of `_find_available_slots_on_date`
(smart_scheduler.py:617-624): hours 9..17 at minutes 0 and 30, except that
`hour == 17 and minute == 30` breaks out (latest start 17:00). -/
def slotGrid : List (Int × Int) :=
  (List.range 9).flatMap (fun k =>
    if k = 8 then [((9 + k : Int), 0)]
    else [((9 + k : Int), 0), ((9 + k : Int), 30)])

/-- `SmartScheduler._find_available_slots_on_date`: all candidate slots of
the requested duration starting on the grid of `dayStart`'s day that are free
for every participant, where an event dict equal to the excluded conflict's
event is skipped.  The slot end is start + duration, NOT clipped to 18:00. -/
def find_available_slots_on_date (dayStart durationMinutes : Int)
    (cal : CalendarData) (excl : Option Conflict) : List (Int × Int) :=
  (slotGrid.map (fun hm =>
      (dayStart + 3600 * hm.1 + 60 * hm.2,
       dayStart + 3600 * hm.1 + 60 * hm.2 + 60 * durationMinutes))).filter
    (fun sl => cal.all (fun p => p.2.all (fun ev =>
      (match excl with
       | some c => decide (ev = c.event)
       | none => false) ||
      ! times_overlap (some sl.1) (some sl.2) ev.startTime.val ev.endTime.val)))

/-- The forward search of `_find_alternative_slot_for_meeting`
(smart_scheduler.py:593-601): days 1..7 after the original date, weekdays
only, no excluded conflict, first slot of the first non-empty day wins. -/
def findSlotForwardAux (dur : Int) (cal : CalendarData) (osDay : Int) :
    List Int → Option (Int × Int)
  | [] => none
  | k :: rest =>
    if weekdayOf (osDay + k * 86400) < 5 then
      match find_available_slots_on_date (osDay + k * 86400) dur cal none with
      | s :: _ => some s
      | [] => findSlotForwardAux dur cal osDay rest
    else findSlotForwardAux dur cal osDay rest

/-- The body of `_find_alternative_slot_for_meeting` after the conflict's
times have been parsed: duration of the conflicting event in whole minutes
(Python `int(...)` truncates toward zero), same-day search excluding the
event itself, then up to 7 subsequent weekdays. -/
def findAlternativeSlotParsed (c : Conflict) (cal : CalendarData) (os oe : Int) :
    Option (Int × Int) :=
  match find_available_slots_on_date (dayFloor os) ((oe - os).tdiv 60) cal (some c) with
  | s :: _ => some s
  | [] => findSlotForwardAux ((oe - os).tdiv 60) cal (dayFloor os) [1, 2, 3, 4, 5, 6, 7]

/-- `SmartScheduler._find_alternative_slot_for_meeting`.  A conflict always
has parseable times (it passed `_times_overlap`), so the `none` fallback of
the parse match is unreachable on real conflicts; it models the exception
that would escape if it were reached. -/
def find_alternative_slot_for_meeting (c : Conflict) (cal : CalendarData) :
    Option (Int × Int) :=
  match c.startTs.val, c.endTs.val with
  | some os, some oe => findAlternativeSlotParsed c cal os oe
  | _, _ => none

/-- One entry of `rescheduled_meetings` (smart_scheduler.py:330-333). -/
structure Resched where
  original : Conflict
  newSlot : Int × Int
deriving DecidableEq, Repr

/-- The inner loop of `_apply_rescheduling` (smart_scheduler.py:663-675):
rewrite the times of the first event matching the conflict's start/end/summary
strings, leave the rest alone. -/
def updateFirstMatch (c : Conflict) (sl : Int × Int) : List SchedEvent → List SchedEvent
  | [] => []
  | ev :: rest =>
    if ev.startTime = c.startTs ∧ ev.endTime = c.endTs ∧ ev.summary = c.summary then
      { ev with startTime := mkTs sl.1, endTime := mkTs sl.2 } :: rest
    else ev :: updateFirstMatch c sl rest

/-- `SmartScheduler._apply_rescheduling`: apply each relocation in order to
the matching participant's event list (in-place mutation modelled by value
update). -/
def apply_rescheduling (cal : CalendarData) (resch : List Resched) : CalendarData :=
  resch.foldl (fun acc r =>
    acc.map (fun p =>
      if p.1 = r.original.email then (p.1, updateFirstMatch r.original r.newSlot p.2)
      else p)) cal

/-- The conflict-relocation pass of `_priority_based_scheduling`
(smart_scheduler.py:326-339): find the conflicts of the preferred slot,
search an alternative for each one AGAINST THE ORIGINAL `calendar_data`
(relocations committed earlier in the pass are not visible to later
searches), then apply all relocations. -/
def priority_rescheduling_pass (ps pe : Int) (cal : CalendarData) :
    List Resched × CalendarData :=
  let conflicts := find_conflicts ps pe cal
  let resch := conflicts.filterMap (fun c =>
    (find_alternative_slot_for_meeting c cal).map (fun sl => Resched.mk c sl))
  (resch, apply_rescheduling cal resch)

lemma mem_find_available_shape {dayStart durationMinutes : Int} {cal : CalendarData}
    {excl : Option Conflict} {s e : Int}
    (hmem : (s, e) ∈ find_available_slots_on_date dayStart durationMinutes cal excl) :
    (∃ hm ∈ slotGrid, s = dayStart + 3600 * hm.1 + 60 * hm.2) ∧
    e = s + 60 * durationMinutes := by
  unfold find_available_slots_on_date at hmem
  obtain ⟨hmap, -⟩ := List.mem_filter.mp hmem
  obtain ⟨hm, hhm, heq⟩ := List.mem_map.mp hmap
  obtain ⟨rfl, rfl⟩ := Prod.mk.injEq .. ▸ heq
  exact ⟨⟨hm, hhm, rfl⟩, rfl⟩

lemma findSlotForwardAux_shape {dur : Int} {cal : CalendarData} {osDay : Int}
    {s e : Int} :
    ∀ {offs : List Int}, findSlotForwardAux dur cal osDay offs = some (s, e) →
      e = s + 60 * dur := by
  intro offs
  induction offs with
  | nil => intro h; simp [findSlotForwardAux] at h
  | cons k rest ih =>
    intro h
    rw [findSlotForwardAux] at h
    split at h
    · split at h
      next s1 tail1 heq =>
        obtain rfl : s1 = (s, e) := by simpa using h
        exact (mem_find_available_shape (heq ▸ List.mem_cons_self _ _)).2
      next => exact ih h
    · exact ih h

lemma find_alternative_shape {c : Conflict} {cal : CalendarData} {s e : Int}
    (h : find_alternative_slot_for_meeting c cal = some (s, e)) :
    ∃ os oe, c.startTs.val = some os ∧ c.endTs.val = some oe ∧
      e = s + 60 * ((oe - os).tdiv 60) := by
  unfold find_alternative_slot_for_meeting at h
  rcases hos : c.startTs.val with _ | os <;>
    rcases hoe : c.endTs.val with _ | oe <;> simp [hos, hoe] at h
  refine ⟨os, oe, rfl, rfl, ?_⟩
  unfold findAlternativeSlotParsed at h
  split at h
  next s1 tail1 heq =>
    obtain rfl : s1 = (s, e) := by simpa using h
    exact (mem_find_available_shape (heq ▸ List.mem_cons_self _ _)).2
  next => exact findSlotForwardAux_shape h

/-- Claim C10: every relocation destination returned by the same-day slot
search starts on the target day at a 30-minute boundary with hour between 9
and 17 (the 17:30 candidate is excluded), ends exactly at start + requested
duration (not clipped to 18:00 — the witness exhibits a slot ending 19:00),
and overlaps no event of the calendar data other than ones equal to the
excluded conflict's event. -/
theorem c10_relocation_slot_sound (dayStart durationMinutes : Int)
    (cal : CalendarData) (excl : Option Conflict) (s e : Int)
    (hmem : (s, e) ∈ find_available_slots_on_date dayStart durationMinutes cal excl) :
    (∃ h m : Int, 9 ≤ h ∧ h ≤ 17 ∧ (m = 0 ∨ m = 30) ∧ ¬(h = 17 ∧ m = 30) ∧
      s = dayStart + 3600 * h + 60 * m) ∧
    e = s + 60 * durationMinutes ∧
    ∀ p ∈ cal, ∀ ev ∈ p.2, (∀ c, excl = some c → ev ≠ c.event) →
      times_overlap (some s) (some e) ev.startTime.val ev.endTime.val = false := by
  have hshape := mem_find_available_shape hmem
  obtain ⟨⟨hm, hhm, hs⟩, he⟩ := hshape
  have hgrid : ∀ x ∈ slotGrid, 9 ≤ x.1 ∧ x.1 ≤ 17 ∧ (x.2 = 0 ∨ x.2 = 30) ∧
      ¬(x.1 = 17 ∧ x.2 = 30) := by decide
  obtain ⟨h9, h17, hm03, hnot⟩ := hgrid hm hhm
  refine ⟨⟨hm.1, hm.2, h9, h17, hm03, hnot, hs⟩, he, ?_⟩
  intro p hp ev hev hne
  unfold find_available_slots_on_date at hmem
  obtain ⟨-, hfree⟩ := List.mem_filter.mp hmem
  have hall := (List.all_eq_true.mp hfree) p hp
  have hthis := (List.all_eq_true.mp hall) ev hev
  rcases hexcl : excl with _ | c
  · rw [hexcl] at hthis
    simpa using hthis
  · rw [hexcl] at hthis
    have hne' := hne c hexcl
    simp only [Bool.or_eq_true, decide_eq_true_eq] at hthis
    rcases hthis with heq | hov
    · exact absurd heq hne'
    · simpa using hov

/-- A concrete event of the relocation scenarios: 09:00-10:00 on reference
day 0 (a Monday) for participant a@x.com. -/
def c10Event : SchedEvent :=
  ⟨⟨"2025-06-30T09:00:00+05:30", some 32400⟩,
   ⟨"2025-06-30T10:00:00+05:30", some 36000⟩, 1, ["a@x.com"], "Standup"⟩

def c10Cal : CalendarData := [("a@x.com", [c10Event])]

/-- Claim C10, witness: with a 120-minute duration the slot 17:00-19:00 is
returned (free of the 09:00-10:00 event); its end lies after the 18:00
business close, confirming that slot ends are not clipped. -/
theorem c10_relocation_slot_sound_witness :
    ((61200, 68400) ∈ find_available_slots_on_date 0 120 c10Cal none) ∧
    ((∃ h m : Int, 9 ≤ h ∧ h ≤ 17 ∧ (m = 0 ∨ m = 30) ∧ ¬(h = 17 ∧ m = 30) ∧
        (61200 : Int) = 0 + 3600 * h + 60 * m) ∧
      (68400 : Int) = 61200 + 60 * 120 ∧
      ∀ p ∈ c10Cal, ∀ ev ∈ p.2, (∀ c, (none : Option Conflict) = some c → ev ≠ c.event) →
        times_overlap (some 61200) (some 68400) ev.startTime.val ev.endTime.val = false) ∧
    replaceHour 61200 18 < 68400 :=
  ⟨by decide, c10_relocation_slot_sound 0 120 c10Cal none 61200 68400 (by decide), by decide⟩

/-- Claim C2 (amended): every relocated event retains its original duration
(recomputed by the code as whole minutes of the original interval); the
no-overlap half of the claim fails — see the counterexample. -/
theorem c2_relocation_duration (ps pe : Int) (cal : CalendarData) (r : Resched)
    (hmem : r ∈ (priority_rescheduling_pass ps pe cal).1) :
    ∃ os oe, r.original.startTs.val = some os ∧ r.original.endTs.val = some oe ∧
      r.newSlot.2 = r.newSlot.1 + 60 * ((oe - os).tdiv 60) := by
  unfold priority_rescheduling_pass at hmem
  simp only at hmem
  obtain ⟨c, hc, hr⟩ := List.mem_filterMap.mp hmem
  rcases hfa : find_alternative_slot_for_meeting c cal with _ | ⟨s0, e0⟩ <;>
    rw [hfa] at hr
  · simp at hr
  · obtain rfl : Resched.mk c (s0, e0) = r := by simpa using hr
    obtain ⟨os, oe, h1, h2, h3⟩ := find_alternative_shape hfa
    exact ⟨os, oe, h1, h2, h3⟩

/-- Two all-morning workshops of the same participant, identical times,
different summaries — both conflict with a high-priority 09:00-09:30 slot. -/
def c2Event1 : SchedEvent :=
  ⟨⟨"2025-06-30T09:00:00+05:30", some 32400⟩,
   ⟨"2025-06-30T10:00:00+05:30", some 36000⟩, 1, ["a@x.com"], "Workshop A"⟩

def c2Event2 : SchedEvent :=
  ⟨⟨"2025-06-30T09:00:00+05:30", some 32400⟩,
   ⟨"2025-06-30T10:00:00+05:30", some 36000⟩, 1, ["a@x.com"], "Workshop B"⟩

def c2Cal : CalendarData := [("a@x.com", [c2Event1, c2Event2])]

def c2Conflict1 : Conflict :=
  ⟨"a@x.com", c2Event1, "Workshop A", c2Event1.startTime, c2Event1.endTime⟩

def c2Moved1 : SchedEvent := ⟨mkTs 36000, mkTs 39600, 1, ["a@x.com"], "Workshop A"⟩

def c2Moved2 : SchedEvent := ⟨mkTs 36000, mkTs 39600, 1, ["a@x.com"], "Workshop B"⟩

/-- Claim C2, witness: in the concrete scenario below, Workshop A (09:00-
10:00, 60 minutes) is relocated to 10:00-11:00 — the destination retains the
60-minute duration. -/
theorem c2_relocation_duration_witness :
    (Resched.mk c2Conflict1 (36000, 39600) ∈
      (priority_rescheduling_pass 32400 34200 c2Cal).1) ∧
    ∃ os oe, c2Conflict1.startTs.val = some os ∧ c2Conflict1.endTs.val = some oe ∧
      (39600 : Int) = 36000 + 60 * ((oe - os).tdiv 60) :=
  ⟨by decide,
    c2_relocation_duration 32400 34200 c2Cal (Resched.mk c2Conflict1 (36000, 39600))
      (by decide)⟩

/-- Claim C2, counterexample: scheduling a high-priority 09:00-09:30 slot
against `c2Cal` displaces both workshops, and BOTH relocation searches pick
the same 10:00-11:00 destination (each search sees only the original
calendar, not relocations committed earlier in the pass).  After applying
the plan, participant a@x.com holds two overlapping events — refuting both
the "no two events of the same participant overlap" part and the "searches
account for earlier relocations" part of the claim. -/
theorem c2_counterexample :
    (priority_rescheduling_pass 32400 34200 c2Cal).1.map Resched.newSlot =
      [(36000, 39600), (36000, 39600)] ∧
    (priority_rescheduling_pass 32400 34200 c2Cal).2 =
      [("a@x.com", [c2Moved1, c2Moved2])] ∧
    c2Moved1 ≠ c2Moved2 ∧
    events_overlap c2Moved1.startTime c2Moved1.endTime
      c2Moved2.startTime c2Moved2.endTime = true := by
  refine ⟨by decide, by decide, by decide, by decide⟩

/-! ### Normal-priority scheduling (`smart_scheduler.py:348-426`) -/

/-- A scheduling-result dict `{start_time, end_time, reasoning}` as returned
by the LLM advisor or by `_algorithmic_scheduling`.  A `none` time component
models a missing (or falsy/empty) key. -/
structure SchedResult where
  start_time : Option Ts
  end_time : Option Ts
  reasoning : String
deriving DecidableEq, Repr

/-- `SmartScheduler._validate_meeting_time` (smart_scheduler.py:391-413):
`False` when either time is missing; otherwise `False` iff `_times_overlap`
reports a conflict with any event of any participant.  There is no check
against the current time. -/
def validate_meeting_time (r : SchedResult) (cal : CalendarData) : Bool :=
  match r.start_time, r.end_time with
  | some s, some e =>
    cal.all (fun p => p.2.all (fun ev =>
      ! times_overlap s.val e.val ev.startTime.val ev.endTime.val))
  | _, _ => false

/-- The acceptance skeleton of `SmartScheduler._normal_priority_scheduling`
(smart_scheduler.py:348-389): `aiResult` is the advisor's output (`none` =
advisor exception), `algoResult` the value `_algorithmic_scheduling` would
produce.  After `_validate_meeting_time` passes, the off-hours logging at
lines 367-371 re-parses the accepted slot's START string with
`datetime.fromisoformat` INSIDE the surrounding `try` (and only when
`proposed_start` is truthy): an unparseable start raises there, the `except`
at line 384 swallows it, and control falls through to
`_algorithmic_scheduling` — so such a slot is not used even though the
validation accepted it.  The slot's end string is never re-parsed. -/
def normal_priority_scheduling (aiResult : Option SchedResult) (cal : CalendarData)
    (algoResult : SchedResult) : SchedResult :=
  match aiResult with
  | some r =>
    if validate_meeting_time r cal then
      match r.start_time with
      | some s =>
        match s.val with
        | some _ => r
        | none => algoResult
      | none => r
    else algoResult
  | none => algoResult

/-- Claim C4 (amended): an advisor (LLM) slot is used as the result only if
`_validate_meeting_time` accepts it — both times present and the engine's
own `_times_overlap` finds no conflict with any event of any participant —
AND its start string parses (the off-hours log at smart_scheduler.py:367-368
re-parses the accepted slot's start inside the `try`, so an unparseable
start falls through to the algorithmic approach via the `except` at line
384); in every other case the algorithmic result is used.  NO check that the
slot is in the future is performed on this path (the original claim's
"strictly in the future relative to now" condition is refuted by the
counterexample). -/
theorem c4_llm_slot_validation (ai : SchedResult) (cal : CalendarData)
    (algo : SchedResult) :
    normal_priority_scheduling none cal algo = algo ∧
    (∀ s v, ai.start_time = some s → s.val = some v →
      validate_meeting_time ai cal = true →
      normal_priority_scheduling (some ai) cal algo = ai) ∧
    (∀ s, ai.start_time = some s → s.val = none →
      normal_priority_scheduling (some ai) cal algo = algo) ∧
    (validate_meeting_time ai cal = false →
      normal_priority_scheduling (some ai) cal algo = algo) ∧
    (validate_meeting_time ai cal = true ↔
      ∃ s e, ai.start_time = some s ∧ ai.end_time = some e ∧
        ∀ p ∈ cal, ∀ ev ∈ p.2,
          times_overlap s.val e.val ev.startTime.val ev.endTime.val = false) := by
  refine ⟨rfl, ?_, ?_, ?_, ?_⟩
  · intro s v hs hv hval
    simp [normal_priority_scheduling, hval, hs, hv]
  · intro s hs hsv
    by_cases hval : validate_meeting_time ai cal <;>
      simp [normal_priority_scheduling, hval, hs, hsv]
  · intro hval
    simp [normal_priority_scheduling, hval]
  · unfold validate_meeting_time
    rcases hs : ai.start_time with _ | s <;> rcases he : ai.end_time with _ | e <;>
      simp [List.all_eq_true]

/-- The literal rendering of claim C4: whenever the advisor's slot is used as
the result (and it is a genuine choice, i.e. differs from the algorithmic
result), it is conflict-free for every participant AND its start is strictly
in the future relative to "now". -/
def c4Claim : Prop :=
  ∀ (ai : SchedResult) (cal : CalendarData) (algo : SchedResult) (now : Int),
    normal_priority_scheduling (some ai) cal algo = ai → ai ≠ algo →
    validate_meeting_time ai cal = true ∧
    ∃ s v, ai.start_time = some s ∧ s.val = some v ∧ now < v

/-- An advisor slot lying entirely in the past (09:00-09:30 of reference day
0, a Monday). -/
def c4PastAi : SchedResult :=
  ⟨some ⟨"2025-06-30T09:00:00+05:30", some 32400⟩,
   some ⟨"2025-06-30T09:30:00+05:30", some 34200⟩, "llm suggestion"⟩

def c4Algo : SchedResult := ⟨none, none, "First available common slot"⟩

/-- Claim C4, counterexample: with empty calendars the past advisor slot
passes `_validate_meeting_time` and is returned unchanged even though "now"
is a week later — the normal-priority path never compares the slot with the
current time. -/
theorem c4_counterexample : ¬ c4Claim := by
  intro h
  obtain ⟨-, s, v, hs, hv, hlt⟩ :=
    h c4PastAi [] c4Algo 636800 (by decide) (by decide)
  have hs' : s = ⟨"2025-06-30T09:00:00+05:30", some 32400⟩ :=
    (Option.some.inj hs).symm
  rw [hs'] at hv
  have hv' : v = 32400 := (Option.some.inj hv).symm
  omega

/-! ### Constraint resolution: the named-weekday branch of
`SmartScheduler._parse_time_constraints` (smart_scheduler.py:209-268) -/

/-- The weekday branch of `_parse_time_constraints`, given the matched
target weekday (0 = Monday .. 6 = Sunday) and "now": compute `days_ahead`
(with the same-day / past-business-hours adjustment and the two dead
re-checks kept verbatim), then format the window as
`start.strftime('%Y-%m-%dT00:00:00')` and `(start+1day).strftime('%Y-%m-%dT23:59:59')`. -/
def daysAheadWeekday (targetDay now : Int) : Int :=
  if (targetDay - weekdayOf now) % 7 = 0 then (if 18 ≤ hourOf now then 7 else 0)
  else (targetDay - weekdayOf now) % 7

def daysAheadAdjusted (targetDay now : Int) : Int :=
  if daysAheadWeekday targetDay now = 0 ∧ targetDay < weekdayOf now then 7
  else daysAheadWeekday targetDay now

/-- The `days_ahead` of the defensive re-check at smart_scheduler.py:241-247
(dead for a genuine weekday index, kept for fidelity). -/
def daysAheadRecheck (targetDay now : Int) : Int :=
  if (targetDay - weekdayOf now) % 7 = 0 then 7 else (targetDay - weekdayOf now) % 7

def weekdayWindowRaw (targetDay now : Int) : Int × Int :=
  if weekdayOf (now + daysAheadAdjusted targetDay now * 86400) ≠ targetDay then
    (now + daysAheadRecheck targetDay now * 86400,
     now + daysAheadRecheck targetDay now * 86400 + 86400)
  else
    (now + daysAheadAdjusted targetDay now * 86400,
     now + daysAheadAdjusted targetDay now * 86400 + 86400)

def parse_time_constraints_weekday (targetDay now : Int) : Int × Int :=
  (dayFloor (weekdayWindowRaw targetDay now).1,
   dayFloor (weekdayWindowRaw targetDay now).2 + 86399)

/-- Claim C5 (amended): the window START is the next occurrence of the
target weekday exactly as the claim says — today when today is the target
weekday and it is still before the 18:00 business close, today + 7 days when
today is the target weekday past the close, and the next occurrence within
the coming week otherwise.  But the window does NOT cover a single day: its
end is 23:59:59 of the day AFTER the start day (the code formats
`end_date = start_date + timedelta(days=1)` with `T23:59:59`), as the final
equation states — so the window spans the target day and the following day. -/
theorem c5_weekday_window (now targetDay : Int) (h0 : 0 ≤ targetDay)
    (h1 : targetDay < 7) :
    weekdayOf (parse_time_constraints_weekday targetDay now).1 = targetDay ∧
    (weekdayOf now = targetDay → hourOf now < 18 →
      (parse_time_constraints_weekday targetDay now).1 = dayFloor now) ∧
    (weekdayOf now = targetDay → 18 ≤ hourOf now →
      (parse_time_constraints_weekday targetDay now).1 = dayFloor now + 7 * 86400) ∧
    (weekdayOf now ≠ targetDay →
      (parse_time_constraints_weekday targetDay now).1 =
        dayFloor now + ((targetDay - weekdayOf now) % 7) * 86400) ∧
    (parse_time_constraints_weekday targetDay now).2 =
      (parse_time_constraints_weekday targetDay now).1 + 86400 + 86399 := by
  unfold parse_time_constraints_weekday weekdayWindowRaw daysAheadAdjusted
    daysAheadRecheck daysAheadWeekday weekdayOf hourOf dayFloor
  split_ifs <;> refine ⟨?_, ?_, ?_, ?_, ?_⟩ <;> intros <;> dsimp only <;> omega

/-- Claim C5, witness: now = Monday 10:00 of the reference week, target
Thursday (3): the window starts Thursday 00:00 (day 3). -/
theorem c5_weekday_window_witness :
    weekdayOf (parse_time_constraints_weekday 3 36000).1 = 3 ∧
    (weekdayOf 36000 = 3 → hourOf 36000 < 18 →
      (parse_time_constraints_weekday 3 36000).1 = dayFloor 36000) ∧
    (weekdayOf 36000 = 3 → 18 ≤ hourOf 36000 →
      (parse_time_constraints_weekday 3 36000).1 = dayFloor 36000 + 7 * 86400) ∧
    (weekdayOf 36000 ≠ 3 →
      (parse_time_constraints_weekday 3 36000).1 =
        dayFloor 36000 + ((3 - weekdayOf 36000) % 7) * 86400) ∧
    (parse_time_constraints_weekday 3 36000).2 =
      (parse_time_constraints_weekday 3 36000).1 + 86400 + 86399 :=
  c5_weekday_window 36000 3 (by norm_num) (by norm_num)

/-- The literal rendering of claim C5's window part: the resolved window
covers exactly the single target day (its end lies on the same day as its
start). -/
def c5SingleDayClaim : Prop :=
  ∀ now targetDay : Int, 0 ≤ targetDay → targetDay < 7 →
    dayIndex (parse_time_constraints_weekday targetDay now).2 =
      dayIndex (parse_time_constraints_weekday targetDay now).1

/-- Claim C5, counterexample: for "thursday" requested on Monday 10:00 the
window is [Thursday 00:00:00, Friday 23:59:59] — it covers Thursday AND
Friday, not the single target day. -/
theorem c5_counterexample : ¬ c5SingleDayClaim := by
  intro h
  exact absurd (h 36000 3 (by norm_num) (by norm_num)) (by decide)

/-! ### Fallback responses (`smart_scheduler.py:738-783`,
`scheduling_validator.py:625-645`) -/

/-- The request fields used by the fallback builders: `From`, the attendee
emails, and `Subject`. -/
structure RequestData where
  fromEmail : String
  attendeeEmails : List String
  subject : String
deriving DecidableEq, Repr

/-- The `MetaData` dict of a fallback response; `none` = key absent. -/
structure FallbackMeta where
  scheduling_method : Option String
  errorMessage : Option String
  emergency_fallback : Option Bool
  validation_failed : Option Bool
deriving DecidableEq, Repr

structure FallbackAttendee where
  email : String
  events : List SchedEvent
deriving DecidableEq, Repr

/-- The parts of a fallback response dict the claims are about. -/
structure FallbackResponse where
  eventStart : Int
  eventEnd : Int
  durationMins : String
  attendees : List FallbackAttendee
  metaData : FallbackMeta
deriving DecidableEq, Repr

/-- The `while tomorrow.weekday() >= 5: tomorrow += timedelta(days=1)` loop
of both fallback builders.  The loop body runs at most twice; fuel 7 is
ample and the lemma below shows the fuelled version reaches a weekday. -/
def skipWeekendAux : Nat → Int → Int
  | 0, t => t
  | n + 1, t => if 5 ≤ weekdayOf t then skipWeekendAux n (t + 86400) else t

def skipWeekend (t : Int) : Int := skipWeekendAux 7 t

/-- `SmartScheduler._create_fallback_response` (smart_scheduler.py:738-783),
the response returned by the `except` handler of `process_meeting_request`:
next weekday on/after tomorrow at 10:00 for 30 minutes; attendee list =
organizer plus request attendees, deduplicated (Python `list(set(...))` has
unspecified order, `List.dedup` is one order; the theorems only use
membership); `MetaData = {scheduling_method: 'fallback', error: ...}` with
NO emergency tag. -/
def create_fallback_response (req : RequestData) (now : Int) : FallbackResponse :=
  let s := replaceHour (skipWeekend (now + 86400)) 10
  let allAtt := (req.fromEmail :: req.attendeeEmails).dedup
  { eventStart := s
    eventEnd := s + 1800
    durationMins := "30"
    attendees := allAtt.map (fun em =>
      ⟨em, [⟨mkTs s, mkTs (s + 1800), (allAtt.length : Int), allAtt, req.subject⟩]⟩)
    metaData := ⟨some "fallback",
      some "Processing failed, using default scheduling", none, none⟩ }

/-- `SchedulingValidator._create_emergency_fallback`
(scheduling_validator.py:625-645), returned when every validation iteration
fails: same default slot, but `Attendees: []` and
`MetaData = {emergency_fallback: true, validation_failed: true}`.  (The
spread of the original request fields is not modelled; none of the claims
concern them.) -/
def create_emergency_fallback (now : Int) : FallbackResponse :=
  let s := replaceHour (skipWeekend (now + 86400)) 10
  { eventStart := s
    eventEnd := s + 1800
    durationMins := "30"
    attendees := []
    metaData := ⟨none, none, some true, some true⟩ }

lemma skipWeekend_spec (t : Int) :
    weekdayOf (skipWeekend t) < 5 ∧ dayFloor t ≤ dayFloor (skipWeekend t) ∧
    dayFloor (skipWeekend t) ≤ dayFloor t + 2 * 86400 ∧
    skipWeekend t % 86400 = t % 86400 := by
  simp only [skipWeekend, skipWeekendAux, weekdayOf, dayFloor]
  split_ifs <;> omega

/-- Claim C6 (amended): the response produced on an unexpected exception is
`_create_fallback_response`: the next weekday on/after tomorrow at the fixed
default hour 10:00, lasting 30 minutes, with attendee list = organizer ∪
request attendees — but its metadata is `{scheduling_method: 'fallback'}`
WITHOUT any emergency tag.  The `emergency_fallback: true` tag belongs to
the validator's `_create_emergency_fallback` (returned when all validation
iterations fail), which instead carries an EMPTY attendee list. -/
theorem c6_fallback_characterization (req : RequestData) (now : Int) :
    (create_fallback_response req now).eventStart =
      replaceHour (skipWeekend (now + 86400)) 10 ∧
    weekdayOf (create_fallback_response req now).eventStart < 5 ∧
    hourOf (create_fallback_response req now).eventStart = 10 ∧
    dayFloor now + 86400 ≤ (create_fallback_response req now).eventStart ∧
    (create_fallback_response req now).eventStart ≤ dayFloor now + 3 * 86400 + 36000 ∧
    (create_fallback_response req now).eventEnd =
      (create_fallback_response req now).eventStart + 1800 ∧
    (create_fallback_response req now).durationMins = "30" ∧
    (∀ x, (∃ a ∈ (create_fallback_response req now).attendees, a.email = x) ↔
      (x = req.fromEmail ∨ x ∈ req.attendeeEmails)) ∧
    (create_fallback_response req now).metaData.scheduling_method = some "fallback" ∧
    (create_fallback_response req now).metaData.emergency_fallback = none ∧
    (create_emergency_fallback now).eventStart =
      (create_fallback_response req now).eventStart ∧
    (create_emergency_fallback now).eventEnd =
      (create_fallback_response req now).eventEnd ∧
    (create_emergency_fallback now).attendees = [] ∧
    (create_emergency_fallback now).metaData.emergency_fallback = some true := by
  obtain ⟨hw, hlo, hhi, hmod⟩ := skipWeekend_spec (now + 86400)
  refine ⟨rfl, ?_, ?_, ?_, ?_, rfl, rfl, ?_, rfl, rfl, rfl, rfl, rfl, rfl⟩
  · show weekdayOf (replaceHour (skipWeekend (now + 86400)) 10) < 5
    unfold weekdayOf replaceHour dayFloor at *
    omega
  · show hourOf (replaceHour (skipWeekend (now + 86400)) 10) = 10
    unfold hourOf replaceHour dayFloor
    omega
  · show dayFloor now + 86400 ≤ replaceHour (skipWeekend (now + 86400)) 10
    unfold replaceHour dayFloor at *
    omega
  · show replaceHour (skipWeekend (now + 86400)) 10 ≤ dayFloor now + 3 * 86400 + 36000
    unfold replaceHour dayFloor at *
    omega
  · intro x
    simp only [create_fallback_response]
    constructor
    · rintro ⟨a, ha, rfl⟩
      obtain ⟨em, hem, rfl⟩ := List.mem_map.mp ha
      simpa using List.mem_dedup.mp hem
    · intro hx
      refine ⟨⟨x, _⟩, List.mem_map.mpr ⟨x, List.mem_dedup.mpr ?_, rfl⟩, rfl⟩
      simpa using hx

/-- The literal rendering of claim C6: the exception-path response has
attendee list organizer ∪ request attendees AND is explicitly tagged as an
emergency fallback. -/
def c6Claim : Prop :=
  ∀ (req : RequestData) (now : Int),
    (∀ x, (∃ a ∈ (create_fallback_response req now).attendees, a.email = x) ↔
      (x = req.fromEmail ∨ x ∈ req.attendeeEmails)) ∧
    (create_fallback_response req now).metaData.emergency_fallback = some true

/-- Claim C6, counterexample: the exception-path response is never tagged
`emergency_fallback` — its metadata is `{scheduling_method: 'fallback',
error: ...}` (smart_scheduler.py:778-781); only the validator's emergency
fallback carries the tag, and that one has an empty attendee list. -/
theorem c6_counterexample : ¬ c6Claim := by
  intro h
  have := (h ⟨"org@x.com", ["b@x.com"], "Budget"⟩ 36000).2
  simp [create_fallback_response] at this

/-! ### The validation loop
(`SchedulingValidator.validate_and_optimize_scheduling`,
scheduling_validator.py:22-103, with its scoring and correction helpers
509-590) -/

/-- The outcomes of the 8 checks of `_comprehensive_validation`
(scheduling_validator.py:191-231), in dict-insertion order. -/
structure CheckResults where
  newMeetingAdded : Bool
  timeConstraints : Bool
  durationAccuracy : Bool
  noConflicts : Bool
  outputFormat : Bool
  futureScheduling : Bool
  attendeeConsistency : Bool
  priorityHandling : Bool
deriving DecidableEq, Repr

def passedCount (c : CheckResults) : Nat :=
  (if c.newMeetingAdded then 1 else 0) + (if c.timeConstraints then 1 else 0) +
  (if c.durationAccuracy then 1 else 0) + (if c.noConflicts then 1 else 0) +
  (if c.outputFormat then 1 else 0) + (if c.futureScheduling then 1 else 0) +
  (if c.attendeeConsistency then 1 else 0) + (if c.priorityHandling then 1 else 0)

/-- The penalty sum of `_calculate_correctness_score`
(scheduling_validator.py:521-526): 10 per failed check whose name contains
"time" or "format" (only `time_constraints` and `output_format` do), 5 per
other failed check. -/
def penaltyCount (c : CheckResults) : Nat :=
  (if c.timeConstraints then 0 else 10) + (if c.outputFormat then 0 else 10) +
  (if c.newMeetingAdded then 0 else 5) + (if c.durationAccuracy then 0 else 5) +
  (if c.noConflicts then 0 else 5) + (if c.futureScheduling then 0 else 5) +
  (if c.attendeeConsistency then 0 else 5) + (if c.priorityHandling then 0 else 5)

/-- `_calculate_correctness_score` (scheduling_validator.py:509-530):
`max(0, passed/total*100 - penalties)` with `total = 8`.  Every value
arising here is exactly representable as a binary float (multiples of 12.5
minus integers), so Python float arithmetic computes this rational exactly. -/
def scoreOf (c : CheckResults) : ℚ :=
  max 0 ((passedCount c : ℚ) * 100 / 8 - (penaltyCount c : ℚ))

/-- The correction actions of `_generate_corrections`
(scheduling_validator.py:532-561). -/
inductive CorrectionAction where
  | reparseConstraints
  | recalculateDuration
  | findAlternativeSlot
deriving DecidableEq, Repr

/-- `_generate_corrections`: one action per failed check whose name contains
`time_constraints` / `duration` / `conflict` (the checks `time_constraints`,
`duration_accuracy`, `no_conflicts`), in the errors' insertion order. -/
def generateCorrections (c : CheckResults) : List CorrectionAction :=
  (if c.timeConstraints then [] else [CorrectionAction.reparseConstraints]) ++
  (if c.durationAccuracy then [] else [CorrectionAction.recalculateDuration]) ++
  (if c.noConflicts then [] else [CorrectionAction.findAlternativeSlot])

/-- The `meeting_params` fields that `_apply_corrections` can modify. -/
structure MeetingParams where
  time_constraints : String
  duration_minutes : Int
  scheduling_approach : String
deriving DecidableEq, Repr

/-- `_apply_corrections` (scheduling_validator.py:563-590), applied to a
deep copy of the parameters. -/
def apply_corrections (p : MeetingParams) (cs : List CorrectionAction) : MeetingParams :=
  cs.foldl (fun q a =>
    match a with
    | CorrectionAction.reparseConstraints =>
      if q.time_constraints.toLower = "flexible" then
        { q with time_constraints := "thursday" }
      else q
    | CorrectionAction.recalculateDuration =>
      if q.duration_minutes < 15 then { q with duration_minutes := 30 }
      else if q.duration_minutes > 120 then { q with duration_minutes := 60 }
      else q
    | CorrectionAction.findAlternativeSlot =>
      { q with scheduling_approach := "algorithmic" }) p

/-- What one loop-body iteration produces when no exception escapes:
the formatted output record, the working calendar copy after scheduling
(mutations stay inside the copy) and the check outcomes computed from the
before/after snapshots. -/
structure AttemptOutcome (O C : Type) where
  output : O
  working : C
  checks : CheckResults

/-- Trace of one iteration: the calendar handed to the attempt (always the
fresh `deepcopy(original_calendar_data)` of scheduling_validator.py:46,
i.e. value-equal to the original), the parameters used, and — unless the
attempt raised — its output and check results. -/
structure TraceEntry (O C P : Type) where
  calArg : C
  params : P
  outcome : Option (O × CheckResults)

inductive LoopOutcome (O : Type) where
  | accepted : O → Nat → LoopOutcome O
  | bestOf : O → LoopOutcome O
  | emergency : LoopOutcome O

/-- The return after the loop (scheduling_validator.py:97-103): `best_result`
if one was recorded, else the emergency fallback. -/
def exitBest {O : Type} : Option O → LoopOutcome O
  | some b => LoopOutcome.bestOf b
  | none => LoopOutcome.emergency

/-- The `while iteration < max_iterations` loop of
`validate_and_optimize_scheduling`, instrumented with a per-iteration trace.
`attempt i c p` is iteration `i`'s body up to scoring — `_find_optimal_meeting_time`
on the fresh copy `c`, `_format_output`, snapshotting and the checks — with
`none` for a raised exception (the `except: continue` path at line 93-95).
`finalize` is `_finalize_result`; `applyCorr` abstracts `_apply_corrections`
(instantiated by `apply_corrections` above).  `best`/`bs` mirror
`best_result`/`best_score` (initially `None`/`0`); acceptance at score ≥ 95,
best kept on strictly greater score, break when no corrections result. -/
def validationLoopAux {O C P : Type}
    (attempt : Nat → C → P → Option (AttemptOutcome O C))
    (finalize : O → CheckResults → Nat → O)
    (applyCorr : P → List CorrectionAction → P) (orig : C) :
    Nat → Nat → P → Option O → ℚ → LoopOutcome O × List (TraceEntry O C P)
  | 0, _, _, best, _ => (exitBest best, [])
  | fuel + 1, iter, p, best, bs =>
    match attempt (iter + 1) orig p with
    | none =>
      ((validationLoopAux attempt finalize applyCorr orig fuel (iter + 1) p best bs).1,
       ⟨orig, p, none⟩ ::
         (validationLoopAux attempt finalize applyCorr orig fuel (iter + 1) p best bs).2)
    | some a =>
      if 95 ≤ scoreOf a.checks then
        (LoopOutcome.accepted (finalize a.output a.checks (iter + 1)) (iter + 1),
         [⟨orig, p, some (a.output, a.checks)⟩])
      else if (generateCorrections a.checks).isEmpty then
        (exitBest (if bs < scoreOf a.checks then some a.output else best),
         [⟨orig, p, some (a.output, a.checks)⟩])
      else
        ((validationLoopAux attempt finalize applyCorr orig fuel (iter + 1)
            (applyCorr p (generateCorrections a.checks))
            (if bs < scoreOf a.checks then some a.output else best)
            (if bs < scoreOf a.checks then scoreOf a.checks else bs)).1,
         ⟨orig, p, some (a.output, a.checks)⟩ ::
           (validationLoopAux attempt finalize applyCorr orig fuel (iter + 1)
             (applyCorr p (generateCorrections a.checks))
             (if bs < scoreOf a.checks then some a.output else best)
             (if bs < scoreOf a.checks then scoreOf a.checks else bs)).2)

/-- `validate_and_optimize_scheduling`: 5 iterations of fuel, starting with
no best result and best score 0. -/
def validate_and_optimize {O C P : Type}
    (attempt : Nat → C → P → Option (AttemptOutcome O C))
    (finalize : O → CheckResults → Nat → O)
    (applyCorr : P → List CorrectionAction → P)
    (orig : C) (p0 : P) : LoopOutcome O × List (TraceEntry O C P) :=
  validationLoopAux attempt finalize applyCorr orig 5 0 p0 none 0

lemma scoreOf_pos {c : CheckResults} (h1 : c.newMeetingAdded = true)
    (h2 : c.outputFormat = true) (h3 : c.priorityHandling = true) :
    0 < scoreOf c := by
  obtain ⟨f1, f2, f3, f4, f5, f6, f7, f8⟩ := c
  simp only at h1 h2 h3
  subst h1; subst h2; subst h3
  cases f2 <;> cases f3 <;> cases f4 <;> cases f6 <;> cases f7 <;>
    norm_num [scoreOf, passedCount, penaltyCount, lt_max_iff]

lemma validationLoopAux_spec {O C P : Type}
    (attempt : Nat → C → P → Option (AttemptOutcome O C))
    (finalize : O → CheckResults → Nat → O)
    (applyCorr : P → List CorrectionAction → P) (orig : C)
    (h3 : ∀ i c p a, attempt i c p = some a →
      a.checks.newMeetingAdded = true ∧ a.checks.outputFormat = true ∧
      a.checks.priorityHandling = true) :
    ∀ (fuel iter : Nat) (p : P) (best : Option O) (bs : ℚ),
      (best = none → bs = 0) →
      ((validationLoopAux attempt finalize applyCorr orig fuel iter p best bs).2.length ≤ fuel) ∧
      (∀ o i,
        (validationLoopAux attempt finalize applyCorr orig fuel iter p best bs).1 =
          LoopOutcome.accepted o i →
        i = iter + (validationLoopAux attempt finalize applyCorr orig fuel iter p best bs).2.length ∧
        ∃ tr0 e,
          (validationLoopAux attempt finalize applyCorr orig fuel iter p best bs).2 = tr0 ++ [e] ∧
          (∃ o0 cr, e.outcome = some (o0, cr) ∧ 95 ≤ scoreOf cr ∧ o = finalize o0 cr i) ∧
          ∀ e' ∈ tr0, ∀ o' cr', e'.outcome = some (o', cr') → scoreOf cr' < 95) ∧
      (∀ o,
        (validationLoopAux attempt finalize applyCorr orig fuel iter p best bs).1 =
          LoopOutcome.bestOf o →
        (best = some o ∧
          ∀ e ∈ (validationLoopAux attempt finalize applyCorr orig fuel iter p best bs).2,
            ∀ o' cr', e.outcome = some (o', cr') → scoreOf cr' ≤ bs) ∨
        (∃ e ∈ (validationLoopAux attempt finalize applyCorr orig fuel iter p best bs).2,
          ∃ cr, e.outcome = some (o, cr) ∧ bs < scoreOf cr ∧
          ∀ e' ∈ (validationLoopAux attempt finalize applyCorr orig fuel iter p best bs).2,
            ∀ o' cr', e'.outcome = some (o', cr') → scoreOf cr' ≤ scoreOf cr)) ∧
      ((validationLoopAux attempt finalize applyCorr orig fuel iter p best bs).1 =
          LoopOutcome.emergency →
        best = none ∧
        ∀ e ∈ (validationLoopAux attempt finalize applyCorr orig fuel iter p best bs).2,
          e.outcome = none) := by
  intro fuel
  induction fuel with
  | zero =>
    intro iter p best bs hb
    refine ⟨by simp [validationLoopAux], ?_, ?_, ?_⟩
    · intro o i hacc
      rcases best with _ | b <;> simp [validationLoopAux, exitBest] at hacc
    · intro o hbf
      rcases best with _ | b <;> simp [validationLoopAux, exitBest] at hbf
      exact Or.inl ⟨by rw [hbf], by simp [validationLoopAux]⟩
    · intro hem
      rcases best with _ | b
      · exact ⟨rfl, by simp [validationLoopAux]⟩
      · simp [validationLoopAux, exitBest] at hem
  | succ fuel ih =>
    intro iter p best bs hb
    rcases hatt : attempt (iter + 1) orig p with _ | a
    · -- exception: `continue` with unchanged params and best
      obtain ⟨ihl, ihacc, ihbest, ihem⟩ := ih (iter + 1) p best bs hb
      simp only [validationLoopAux, hatt]
      refine ⟨by simpa using Nat.succ_le_succ ihl, ?_, ?_, ?_⟩
      · intro o i hacc
        obtain ⟨hi, tr0, e, htr, hlast, hearlier⟩ := ihacc o i hacc
        refine ⟨by simp [hi, htr]; omega, ⟨orig, p, none⟩ :: tr0, e, by simp [htr], hlast, ?_⟩
        intro e' he' o' cr' hout
        rcases List.mem_cons.mp he' with rfl | h'
        · simp at hout
        · exact hearlier e' h' o' cr' hout
      · intro o hbf
        rcases ihbest o hbf with ⟨hsome, hall⟩ | ⟨e, he, cr, hcr, hgt, hall⟩
        · refine Or.inl ⟨hsome, ?_⟩
          intro e' he' o' cr' hout
          rcases List.mem_cons.mp he' with rfl | h'
          · simp at hout
          · exact hall e' h' o' cr' hout
        · refine Or.inr ⟨e, List.mem_cons_of_mem _ he, cr, hcr, hgt, ?_⟩
          intro e' he' o' cr' hout
          rcases List.mem_cons.mp he' with rfl | h'
          · simp at hout
          · exact hall e' h' o' cr' hout
      · intro hem
        obtain ⟨hbn, hall⟩ := ihem hem
        refine ⟨hbn, ?_⟩
        intro e' he'
        rcases List.mem_cons.mp he' with rfl | h'
        · rfl
        · exact hall e' h'
    · -- an attempt that produced a result
      obtain ⟨hc1, hc2, hc3⟩ := h3 _ _ _ _ hatt
      have hpos : 0 < scoreOf a.checks := scoreOf_pos hc1 hc2 hc3
      by_cases h95 : 95 ≤ scoreOf a.checks
      · -- ACCEPT: terminate immediately with this attempt's result
        simp only [validationLoopAux, hatt, if_pos h95]
        refine ⟨by simp, ?_, ?_, ?_⟩
        · intro o i hacc
          obtain ⟨rfl, rfl⟩ : finalize a.output a.checks (iter + 1) = o ∧ iter + 1 = i := by
            cases hacc; exact ⟨rfl, rfl⟩
          exact ⟨by simp, [], ⟨orig, p, some (a.output, a.checks)⟩, by simp,
            ⟨a.output, a.checks, rfl, h95, rfl⟩, by simp⟩
        · intro o hbf; cases hbf
        · intro hem; cases hem
      · by_cases hcor : (generateCorrections a.checks).isEmpty = true
        · -- break: no corrections possible, return best-so-far
          simp only [validationLoopAux, hatt, if_neg h95, if_pos hcor]
          by_cases hlt : bs < scoreOf a.checks
          · simp only [if_pos hlt]
            refine ⟨by simp, ?_, ?_, ?_⟩
            · intro o i hacc; simp [exitBest] at hacc
            · intro o hbf
              obtain rfl : a.output = o := by simpa [exitBest] using hbf
              refine Or.inr ⟨⟨orig, p, some (a.output, a.checks)⟩, by simp, a.checks, rfl,
                hlt, ?_⟩
              intro e' he' o' cr' hout
              obtain rfl : e' = ⟨orig, p, some (a.output, a.checks)⟩ := by simpa using he'
              obtain ⟨rfl, rfl⟩ : o' = a.output ∧ cr' = a.checks := by
                simpa [eq_comm] using hout
              exact le_refl _
            · intro hem; simp [exitBest] at hem
          · simp only [if_neg hlt]
            rcases best with _ | b
            · exact absurd hpos (by rw [hb rfl] at hlt; exact hlt)
            · refine ⟨by simp, ?_, ?_, ?_⟩
              · intro o i hacc; simp [exitBest] at hacc
              · intro o hbf
                obtain rfl : b = o := by simpa [exitBest] using hbf
                refine Or.inl ⟨rfl, ?_⟩
                intro e' he' o' cr' hout
                obtain rfl : e' = ⟨orig, p, some (a.output, a.checks)⟩ := by simpa using he'
                obtain ⟨rfl, rfl⟩ : o' = a.output ∧ cr' = a.checks := by
                  simpa [eq_comm] using hout
                exact le_of_not_lt hlt
              · intro hem; simp [exitBest] at hem
        · -- CORRECT: loop back with corrected parameters
          have hb' : (if bs < scoreOf a.checks then some a.output else best) = none →
              (if bs < scoreOf a.checks then scoreOf a.checks else bs) = 0 := by
            by_cases hlt : bs < scoreOf a.checks <;> simp [hlt]
            exact hb
          obtain ⟨ihl, ihacc, ihbest, ihem⟩ := ih (iter + 1)
            (applyCorr p (generateCorrections a.checks))
            (if bs < scoreOf a.checks then some a.output else best)
            (if bs < scoreOf a.checks then scoreOf a.checks else bs) hb'
          simp only [validationLoopAux, hatt, if_neg h95, if_neg hcor]
          have hle_bs' : bs ≤ (if bs < scoreOf a.checks then scoreOf a.checks else bs) := by
            by_cases hlt : bs < scoreOf a.checks <;> simp [hlt]
            exact le_of_lt hlt
          have hs_le_bs' : scoreOf a.checks ≤
              (if bs < scoreOf a.checks then scoreOf a.checks else bs) := by
            by_cases hlt : bs < scoreOf a.checks <;> simp [hlt]
            exact le_of_not_lt hlt
          refine ⟨by simpa using Nat.succ_le_succ ihl, ?_, ?_, ?_⟩
          · intro o i hacc
            obtain ⟨hi, tr0, e, htr, hlast, hearlier⟩ := ihacc o i hacc
            refine ⟨by simp [hi, htr]; omega,
              ⟨orig, p, some (a.output, a.checks)⟩ :: tr0, e, by simp [htr], hlast, ?_⟩
            intro e' he' o' cr' hout
            rcases List.mem_cons.mp he' with rfl | h'
            · obtain ⟨rfl, rfl⟩ : o' = a.output ∧ cr' = a.checks := by
                simpa [eq_comm] using hout
              exact lt_of_not_le h95
            · exact hearlier e' h' o' cr' hout
          · intro o hbf
            rcases ihbest o hbf with ⟨hsome, hall⟩ | ⟨e, he, cr, hcr, hgt, hall⟩
            · by_cases hlt : bs < scoreOf a.checks
              · obtain rfl : a.output = o := by
                  have hs' := hsome
                  rw [if_pos hlt] at hs'
                  simpa using hs'
                refine Or.inr ⟨⟨orig, p, some (a.output, a.checks)⟩, by simp, a.checks, rfl,
                  hlt, ?_⟩
                intro e' he' o' cr' hout
                rcases List.mem_cons.mp he' with rfl | h'
                · obtain ⟨rfl, rfl⟩ : o' = a.output ∧ cr' = a.checks := by
                    simpa [eq_comm] using hout
                  exact le_refl _
                · have hthis := hall e' h' o' cr' hout
                  rwa [if_pos hlt] at hthis
              · have hsome' : best = some o := by
                  have hs' := hsome
                  rwa [if_neg hlt] at hs'
                refine Or.inl ⟨hsome', ?_⟩
                intro e' he' o' cr' hout
                rcases List.mem_cons.mp he' with rfl | h'
                · obtain ⟨rfl, rfl⟩ : o' = a.output ∧ cr' = a.checks := by
                    simpa [eq_comm] using hout
                  exact le_of_not_lt hlt
                · have hthis := hall e' h' o' cr' hout
                  rwa [if_neg hlt] at hthis
            · refine Or.inr ⟨e, List.mem_cons_of_mem _ he, cr, hcr, lt_of_le_of_lt hle_bs' hgt, ?_⟩
              intro e' he' o' cr' hout
              rcases List.mem_cons.mp he' with rfl | h'
              · obtain ⟨rfl, rfl⟩ : o' = a.output ∧ cr' = a.checks := by
                  simpa [eq_comm] using hout
                exact le_of_lt (lt_of_le_of_lt hs_le_bs' hgt)
              · exact hall e' h' o' cr' hout
          · intro hem
            obtain ⟨hbn, -⟩ := ihem hem
            by_cases hlt : bs < scoreOf a.checks
            · rw [if_pos hlt] at hbn; cases hbn
            · rw [if_neg hlt] at hbn
              exact absurd hpos (by rw [hb hbn] at hlt; exact hlt)

/-- `_format_output` (smart_scheduler.py:677-736) restricted to the attendee
lists: the new meeting event is appended to every attendee's event list of
the working calendar copy.  (The other output fields — `EventStart`,
`Duration_mins`, `MetaData`, ... — are built unconditionally, which is why
`_validate_output_format` cannot fail on this output.) -/
def format_output_attendees (cal : CalendarData) (newEv : SchedEvent) : CalendarData :=
  cal.map (fun p => (p.1, p.2 ++ [newEv]))

/-- `_validate_new_meeting_added` (scheduling_validator.py:252-275): passes
iff every attendee of the before snapshot has strictly more events in the
after snapshot (snapshot `total_events` per attendee is the event-list
length). -/
def validate_new_meeting_added (before after : CalendarData) : Bool :=
  before.all (fun p =>
    match after.find? (fun q => q.1 = p.1) with
    | some q => decide (p.2.length < q.2.length)
    | none => false)

/-- `_validate_priority_handling` (scheduling_validator.py:478-507): the
high-priority branch returns passed on the 9-o'clock early return and falls
through to the generic passed result otherwise — the check never fails. -/
def validate_priority_handling (priority : String) (schedHour : Option Int) : Bool :=
  if priority = "high" then
    match schedHour with
    | some h => if h = 9 then true else true
    | none => true
  else true

lemma validate_priority_handling_eq_true (priority : String) (schedHour : Option Int) :
    validate_priority_handling priority schedHour = true := by
  unfold validate_priority_handling
  rcases schedHour with _ | h <;> simp

/-- `_apply_rescheduling` rewrites event times in place: it changes neither
the set of attendees nor any attendee's event count. -/
lemma apply_rescheduling_shape (cal : CalendarData) (resch : List Resched) :
    (apply_rescheduling cal resch).map (fun p => (p.1, p.2.length)) =
      cal.map (fun p => (p.1, p.2.length)) := by
  induction resch generalizing cal with
  | nil => rfl
  | cons r rest ih =>
    have hstep : ∀ (c : CalendarData),
        (c.map (fun p => if p.1 = r.original.email
          then (p.1, updateFirstMatch r.original r.newSlot p.2) else p)).map
            (fun p => (p.1, p.2.length)) =
        c.map (fun p => (p.1, p.2.length)) := by
      intro c
      induction c with
      | nil => rfl
      | cons hd tl ihc =>
        have hlen : ∀ (l : List SchedEvent),
            (updateFirstMatch r.original r.newSlot l).length = l.length := by
          intro l
          induction l with
          | nil => rfl
          | cons ev evs ihl =>
            unfold updateFirstMatch
            split_ifs <;> simp [ihl]
        simp only [List.map_cons, ihc]
        split_ifs with hemail <;> simp [hlen, hemail]
    show (apply_rescheduling (cal.map (fun p => if p.1 = r.original.email
        then (p.1, updateFirstMatch r.original r.newSlot p.2) else p)) rest).map
          (fun p => (p.1, p.2.length)) = cal.map (fun p => (p.1, p.2.length))
    rw [ih, hstep]

/-- When the after calendar is the (possibly rescheduled) working copy with
the new meeting appended to every attendee, the new-meeting check passes:
the working copy has the same attendees with the same event counts as the
original (deep copy plus in-place time rewrites), and appending adds one. -/
lemma validate_new_meeting_added_format :
    ∀ (before working : CalendarData) (newEv : SchedEvent),
      (before.map Prod.fst).Nodup →
      working.map (fun p => (p.1, p.2.length)) = before.map (fun p => (p.1, p.2.length)) →
      validate_new_meeting_added before (format_output_attendees working newEv) = true := by
  intro before
  induction before with
  | nil =>
    intro working newEv _ _
    simp [validate_new_meeting_added]
  | cons hd tl ih =>
    intro working newEv hnd hshape
    rcases working with _ | ⟨whd, wtl⟩
    · simp at hshape
    · simp only [List.map_cons, List.cons.injEq, Prod.mk.injEq] at hshape
      obtain ⟨⟨heq1, heq2⟩, hrest⟩ := hshape
      rw [List.map_cons, List.nodup_cons] at hnd
      obtain ⟨hni, hnd'⟩ := hnd
      unfold validate_new_meeting_added format_output_attendees
      rw [List.all_eq_true]
      intro p hp
      rcases List.mem_cons.mp hp with rfl | hmem
      · rw [List.map_cons, List.find?_cons_of_pos _ (by simp [heq1])]
        simp [← heq2]
      · have hne : whd.1 ≠ p.1 := by
          rw [heq1]
          intro hcontra
          exact hni (by rw [hcontra]; exact List.mem_map_of_mem Prod.fst hmem)
        rw [List.map_cons, List.find?_cons_of_neg _ (by simp [hne])]
        have hthis := ih wtl newEv hnd' hrest
        unfold validate_new_meeting_added format_output_attendees at hthis
        rw [List.all_eq_true] at hthis
        exact hthis p hmem

/-- Claim C1: the validation loop makes at most 5 scheduling attempts; the
moment an attempt scores at least 95 the loop terminates — every earlier
attempt scored below 95 — and returns that attempt's (finalized) result;
when no attempt reaches 95, the loop returns the best-scoring recorded
result if some attempt produced one, else the emergency fallback.  The
hypothesis `h3` states that a completed attempt always passes the
`new_meeting_added`, `output_format` and `priority_handling` checks: this is
a fact of the code, not an extra assumption — `_validate_priority_handling`
returns passed on every path (`validate_priority_handling_eq_true`),
`_format_output` always emits all required fields, and it appends the new
meeting to every attendee of the working copy, whose attendees and event
counts match the original (`validate_new_meeting_added_format`,
`apply_rescheduling_shape`) — and it guarantees a completed attempt scores
above 0 and is therefore recorded as `best_result`. -/
theorem c1_validation_loop {O C P : Type}
    (attempt : Nat → C → P → Option (AttemptOutcome O C))
    (finalize : O → CheckResults → Nat → O)
    (applyCorr : P → List CorrectionAction → P) (orig : C) (p0 : P)
    (h3 : ∀ i c p a, attempt i c p = some a →
      a.checks.newMeetingAdded = true ∧ a.checks.outputFormat = true ∧
      a.checks.priorityHandling = true) :
    ((validate_and_optimize attempt finalize applyCorr orig p0).2.length ≤ 5) ∧
    (∀ o i, (validate_and_optimize attempt finalize applyCorr orig p0).1 =
        LoopOutcome.accepted o i →
      i = (validate_and_optimize attempt finalize applyCorr orig p0).2.length ∧
      ∃ tr0 e,
        (validate_and_optimize attempt finalize applyCorr orig p0).2 = tr0 ++ [e] ∧
        (∃ o0 cr, e.outcome = some (o0, cr) ∧ 95 ≤ scoreOf cr ∧ o = finalize o0 cr i) ∧
        ∀ e' ∈ tr0, ∀ o' cr', e'.outcome = some (o', cr') → scoreOf cr' < 95) ∧
    (∀ o, (validate_and_optimize attempt finalize applyCorr orig p0).1 =
        LoopOutcome.bestOf o →
      ∃ e ∈ (validate_and_optimize attempt finalize applyCorr orig p0).2, ∃ cr,
        e.outcome = some (o, cr) ∧ 0 < scoreOf cr ∧
        ∀ e' ∈ (validate_and_optimize attempt finalize applyCorr orig p0).2,
          ∀ o' cr', e'.outcome = some (o', cr') → scoreOf cr' ≤ scoreOf cr) ∧
    ((validate_and_optimize attempt finalize applyCorr orig p0).1 =
        LoopOutcome.emergency →
      ∀ e ∈ (validate_and_optimize attempt finalize applyCorr orig p0).2,
        e.outcome = none) := by
  obtain ⟨hl, hacc, hbest, hem⟩ :=
    validationLoopAux_spec attempt finalize applyCorr orig h3 5 0 p0 none 0 (fun _ => rfl)
  refine ⟨hl, ?_, ?_, fun h => (hem h).2⟩
  · intro o i h
    obtain ⟨hi, tr0, e, htr, hlast, hearlier⟩ := hacc o i h
    exact ⟨by simpa using hi, tr0, e, htr, hlast, hearlier⟩
  · intro o h
    rcases hbest o h with ⟨hs, -⟩ | ⟨e, he, cr, hcr, hgt, hall⟩
    · cases hs
    · exact ⟨e, he, cr, hcr, hgt, hall⟩

def c1AllPass : CheckResults := ⟨true, true, true, true, true, true, true, true⟩

def c1Attempt : Nat → Unit → Unit → Option (AttemptOutcome Unit Unit) :=
  fun _ _ _ => some ⟨(), (), c1AllPass⟩

def c1Finalize : Unit → CheckResults → Nat → Unit := fun _ _ _ => ()

def c1Apply : Unit → List CorrectionAction → Unit := fun p _ => p

/-- Claim C1, witness: an attempt that always succeeds with all checks
passing (score 100) satisfies the hypothesis; the loop accepts at the first
iteration. -/
theorem c1_validation_loop_witness :
    ((validate_and_optimize c1Attempt c1Finalize c1Apply () ()).2.length ≤ 5) ∧
    (∀ o i, (validate_and_optimize c1Attempt c1Finalize c1Apply () ()).1 =
        LoopOutcome.accepted o i →
      i = (validate_and_optimize c1Attempt c1Finalize c1Apply () ()).2.length ∧
      ∃ tr0 e,
        (validate_and_optimize c1Attempt c1Finalize c1Apply () ()).2 = tr0 ++ [e] ∧
        (∃ o0 cr, e.outcome = some (o0, cr) ∧ 95 ≤ scoreOf cr ∧ o = c1Finalize o0 cr i) ∧
        ∀ e' ∈ tr0, ∀ o' cr', e'.outcome = some (o', cr') → scoreOf cr' < 95) ∧
    (∀ o, (validate_and_optimize c1Attempt c1Finalize c1Apply () ()).1 =
        LoopOutcome.bestOf o →
      ∃ e ∈ (validate_and_optimize c1Attempt c1Finalize c1Apply () ()).2, ∃ cr,
        e.outcome = some (o, cr) ∧ 0 < scoreOf cr ∧
        ∀ e' ∈ (validate_and_optimize c1Attempt c1Finalize c1Apply () ()).2,
          ∀ o' cr', e'.outcome = some (o', cr') → scoreOf cr' ≤ scoreOf cr) ∧
    ((validate_and_optimize c1Attempt c1Finalize c1Apply () ()).1 =
        LoopOutcome.emergency →
      ∀ e ∈ (validate_and_optimize c1Attempt c1Finalize c1Apply () ()).2,
        e.outcome = none) :=
  c1_validation_loop c1Attempt c1Finalize c1Apply () ()
    (by
      intro i c p a h
      obtain rfl : AttemptOutcome.mk () () c1AllPass = a := by
        simpa [c1Attempt] using h
      exact ⟨rfl, rfl, rfl⟩)

/-- The parameter handed to the next iteration: unchanged after an exception
(`continue`), else the result of applying the generated corrections. -/
def nextParams {O P : Type} (applyCorr : P → List CorrectionAction → P) (p : P) :
    Option (O × CheckResults) → P
  | none => p
  | some (_, cr) => applyCorr p (generateCorrections cr)

/-- The frame property of the loop trace: every iteration's attempt receives
exactly the original calendar data (the fresh deep copy of
scheduling_validator.py:46 is value-equal to the original, so one attempt's
relocations and event insertions — confined to its own copy — are invisible
to later attempts), and only the meeting parameters drift between
iterations, via `_apply_corrections` on the previous iteration's failed
checks. -/
def calParamsChain {O C P : Type} (applyCorr : P → List CorrectionAction → P)
    (orig : C) : P → List (TraceEntry O C P) → Prop
  | _, [] => True
  | p, e :: tr =>
    e.calArg = orig ∧ e.params = p ∧
    calParamsChain applyCorr orig (nextParams applyCorr p e.outcome) tr

lemma validationLoopAux_chain {O C P : Type}
    (attempt : Nat → C → P → Option (AttemptOutcome O C))
    (finalize : O → CheckResults → Nat → O)
    (applyCorr : P → List CorrectionAction → P) (orig : C) :
    ∀ (fuel iter : Nat) (p : P) (best : Option O) (bs : ℚ),
      calParamsChain applyCorr orig p
        (validationLoopAux attempt finalize applyCorr orig fuel iter p best bs).2 := by
  intro fuel
  induction fuel with
  | zero => intro iter p best bs; simp [validationLoopAux, calParamsChain]
  | succ fuel ih =>
    intro iter p best bs
    rcases hatt : attempt (iter + 1) orig p with _ | a
    · simp only [validationLoopAux, hatt, calParamsChain]
      exact ⟨trivial, trivial, ih (iter + 1) p best bs⟩
    · by_cases h95 : 95 ≤ scoreOf a.checks
      · simp only [validationLoopAux, hatt, if_pos h95, calParamsChain]
        exact ⟨trivial, trivial, trivial⟩
      · by_cases hcor : (generateCorrections a.checks).isEmpty = true
        · simp only [validationLoopAux, hatt, if_neg h95, if_pos hcor, calParamsChain]
          exact ⟨trivial, trivial, trivial⟩
        · simp only [validationLoopAux, hatt, if_neg h95, if_neg hcor, calParamsChain]
          exact ⟨trivial, trivial, ih (iter + 1) (applyCorr p (generateCorrections a.checks)) _ _⟩

/-- Claim C9: the validation loop never mutates the original calendar data —
every attempt operates on a fresh copy value-equal to the original snapshot
(each trace entry's calendar argument IS the original), so one attempt's
relocations or event insertions are invisible to later attempts, and only
the meeting parameters change between attempts, exactly by
`_apply_corrections` of the previous attempt's corrections. -/
theorem c9_fresh_copy_per_attempt {O C P : Type}
    (attempt : Nat → C → P → Option (AttemptOutcome O C))
    (finalize : O → CheckResults → Nat → O)
    (applyCorr : P → List CorrectionAction → P) (orig : C) (p0 : P) :
    calParamsChain applyCorr orig p0
      (validate_and_optimize attempt finalize applyCorr orig p0).2 :=
  validationLoopAux_chain attempt finalize applyCorr orig 5 0 p0 none 0
